import Mathlib

/-!
# Verification of the flyout tray core (`src/core/flyout_base.ts`)

A shallow embedding of the flyout's content parser, gap bookkeeping, block
recycling, capacity filter, instantiation-event protocol and block
positioning, together with theorems checking the natural-language
specification against the code.

Modelling conventions:
* JavaScript values that the code inspects only through truthiness and
  `parseInt` are modelled by `JsVal` (a truthiness bit plus the result of
  `parseInt(v.toString(), 10)`, where `none` stands for `NaN`).
* Thrown JavaScript errors are modelled with `Except FlyErr`.
* The `for` loop of `createFlyoutInfo_` may fail to terminate when a
  dynamic-category callback keeps producing further dynamic categories, so
  the loop is given explicit fuel; `FlyErr.fuelExhausted` marks a run that
  was cut off (it never occurs for the inputs the theorems talk about).
-/

namespace Flyout

/-- A JavaScript attribute value as the flyout code observes it: its
truthiness (`if (v)`) and the integer produced by `parseInt(v.toString(), 10)`
(`none` when that is `NaN`). -/
structure JsVal where
  truthy : Bool
  parsedInt : Option Int
  deriving DecidableEq, Repr

/-- Truthiness of a possibly-absent property (`undefined` is falsy). -/
def jsTruthy : Option JsVal → Bool
  | none => false
  | some v => v.truthy

/-- The slice of `toolbox.BlockInfo` that `createFlyoutInfo_` and
`addBlockGap_` inspect: the block type, the `gap` property, and — when a
`blockxml` form is present — the parse of the xml's `gap` attribute
(`some none` = blockxml present but its gap attribute parses to `NaN`,
`none` = no blockxml). -/
structure BlockInfo where
  btype : String
  gap : Option JsVal
  blockxmlGap : Option (Option Int)
  deriving DecidableEq, Repr

/-- The slice of `toolbox.SeparatorInfo` that `addSeparatorGap_` inspects:
the `gap` property (`none` = property absent, i.e. `undefined`). -/
structure SepInfo where
  gap : Option JsVal
  deriving DecidableEq, Repr

/-- One parsed content entry, the result of
`toolbox.convertFlyoutDefToJsonArray`: a block, separator, label, button or
dynamic-category (`custom`) entry.  Label and button payloads are irrelevant
to the flyout's control flow, so they are not modelled. -/
inductive EntryInfo where
  | block (info : BlockInfo)
  | sep (info : SepInfo)
  | label
  | button
  | custom (categoryName : String)
  deriving DecidableEq, Repr

/-- Whether an entry is a dynamic-category (`'custom' in contentInfo`). -/
def EntryInfo.isCustom : EntryInfo → Bool
  | .custom _ => true
  | _ => false

/-- A `FlyoutItem` as pushed onto `contents`: a block item (recording the
descriptor it was materialized from) or a button item (`isLabel` true for
labels). -/
inductive Item where
  | blockItem (info : BlockInfo)
  | buttonItem (isLabel : Bool)
  deriving DecidableEq, Repr

/-- Thrown JavaScript errors reachable from the modelled code, plus the
fuel marker for the dynamic-category expansion loop. -/
inductive FlyErr where
  /-- `getDynamicCategoryContents_` threw: no callback registered. -/
  | configError
  /-- A `TypeError` from dereferencing `undefined`
  (`sepInfo['gap']!.toString()` with the property absent, or
  `contentInfo['kind']` after a dynamic category expanded to nothing at the
  end of the list). -/
  | typeError
  /-- The expansion loop ran out of fuel (models non-termination). -/
  | fuelExhausted
  deriving DecidableEq, Repr

/-- `CORNER_RADIUS` of the flyout background. -/
def CORNER_RADIUS : Int := 8

/-- `MARGIN = CORNER_RADIUS`. -/
def MARGIN : Int := CORNER_RADIUS

/-- `GAP_X = MARGIN * 3`: default gap between items in horizontal flyouts. -/
def GAP_X : Int := MARGIN * 3

/-- `GAP_Y = MARGIN * 3`: default gap between items in vertical flyouts. -/
def GAP_Y : Int := MARGIN * 3

/-- `addBlockGap_(blockInfo, gaps, defaultGap)`: reads the block's `gap`
property when truthy, otherwise the `gap` attribute of its `blockxml` when
one is present; pushes the parsed gap, falling back to `defaultGap` when the
parsed value is `0`, `NaN` or was never assigned
(`gaps.push(!gap || isNaN(gap) ? defaultGap : gap)`). -/
def addBlockGap_ (blockInfo : BlockInfo) (gaps : List Int) (defaultGap : Int) :
    List Int :=
  let gap : Option Int :=
    if jsTruthy blockInfo.gap then
      blockInfo.gap.bind (·.parsedInt)
    else
      match blockInfo.blockxmlGap with
      | some xmlGap => xmlGap
      | none => none
  gaps ++ [match gap with
    | some g => if g = 0 then defaultGap else g
    | none => defaultGap]

/-- `addSeparatorGap_(sepInfo, gaps, defaultGap)`: parses
`sepInfo['gap']!.toString()` — a `TypeError` when the property is absent —
and either overwrites the last gap (`gaps[gaps.length - 1] = newGap` when the
parse is numeric and `gaps` is nonempty) or pushes `defaultGap`. -/
def addSeparatorGap_ (sepInfo : SepInfo) (gaps : List Int) (defaultGap : Int) :
    Except FlyErr (List Int) :=
  match sepInfo.gap with
  | none => .error .typeError
  | some v =>
    match v.parsedInt with
    | some newGap =>
      if gaps.length > 0 then
        .ok (gaps.set (gaps.length - 1) newGap)
      else
        .ok (gaps ++ [defaultGap])
    | none => .ok (gaps ++ [defaultGap])

/-- A dynamic-category registry: the target workspace's
`getToolboxCategoryCallback` table — a mapping from category name to the
callback's result, already converted by `convertFlyoutDefToJsonArray`. -/
def Registry : Type := List (String × List EntryInfo)

/-- Lookup of a category callback by name. -/
def regLookup : Registry → String → Option (List EntryInfo)
  | [], _ => none
  | (k, v) :: rest, categoryName =>
    if categoryName = k then some v else regLookup rest categoryName

/-- `getDynamicCategoryContents_(categoryName)`: looks up the registered
callback and throws a `TypeError` (no callback found) when the lookup does
not yield a function. -/
def getDynamicCategoryContents_ (reg : Registry) (categoryName : String) :
    Except FlyErr (List EntryInfo) :=
  match regLookup reg categoryName with
  | none => .error .configError
  | some contents => .ok contents

/-- The `switch (contentInfo['kind'].toUpperCase())` body of
`createFlyoutInfo_`: blocks push a content item and a gap, separators only
touch the gap list, labels and buttons push a content item and the default
gap.  A dynamic-category entry reaching the switch (its `kind` matches no
case) falls through and contributes nothing. -/
def switchStep (dg : Int) (e : EntryInfo) (contents : List Item)
    (gaps : List Int) : Except FlyErr (List Item × List Int) :=
  match e with
  | .block info =>
    .ok (contents ++ [.blockItem info], addBlockGap_ info gaps dg)
  | .sep info =>
    match addSeparatorGap_ info gaps dg with
    | .error err => .error err
    | .ok gaps2 => .ok (contents, gaps2)
  | .label => .ok (contents ++ [.buttonItem true], gaps ++ [dg])
  | .button => .ok (contents ++ [.buttonItem false], gaps ++ [dg])
  | .custom _ => .ok (contents, gaps)

/-- The `for` loop of `createFlyoutInfo_`.  One iteration handles the entry
at the cursor: when it is a dynamic category, the resolved expansion is
spliced in place of it (`parsedContent.splice(i, 1, ...expansion)`), the
element now at the cursor is re-read **without a further `'custom'` check**
and handed straight to the switch, after which the cursor advances.  An
empty expansion at the very end leaves `contentInfo` `undefined` and the
subsequent `contentInfo['kind']` access throws. -/
def createFlyoutInfoLoop (reg : Registry) (dg : Int) :
    Nat → List EntryInfo → List Item → List Int →
    Except FlyErr (List Item × List Int)
  | 0, _, _, _ => .error .fuelExhausted
  | _ + 1, [], contents, gaps => .ok (contents, gaps)
  | fuel + 1, e :: rest, contents, gaps =>
    match e with
    | .custom categoryName =>
      match getDynamicCategoryContents_ reg categoryName with
      | .error err => .error err
      | .ok expansion =>
        match expansion ++ rest with
        | [] => .error .typeError
        | e2 :: rest2 =>
          match switchStep dg e2 contents gaps with
          | .error err => .error err
          | .ok (c2, g2) => createFlyoutInfoLoop reg dg fuel rest2 c2 g2
    | _ =>
      match switchStep dg e contents gaps with
      | .error err => .error err
      | .ok (c2, g2) => createFlyoutInfoLoop reg dg fuel rest c2 g2

/-- `createFlyoutInfo_(parsedContent)`: runs the loop from empty `contents`
and `gaps` accumulators (`permanentlyDisabled_` is reset alongside; block
materialization itself is modelled separately). -/
def createFlyoutInfo_ (reg : Registry) (dg : Int) (fuel : Nat)
    (parsedContent : List EntryInfo) : Except FlyErr (List Item × List Int) :=
  createFlyoutInfoLoop reg dg fuel parsedContent [] []

/-- The registry with no callbacks registered. -/
def emptyReg : Registry := []

/-! ## Spec-side reference functions for the content parser -/

/-- Straight-line processing of a custom-free entry list: each entry in order
through the switch.  This is the reference the loop is compared against. -/
def processSeq (dg : Int) : List EntryInfo → List Item → List Int →
    Except FlyErr (List Item × List Int)
  | [], contents, gaps => .ok (contents, gaps)
  | e :: rest, contents, gaps =>
    match switchStep dg e contents gaps with
    | .error err => .error err
    | .ok (c2, g2) => processSeq dg rest c2 g2

/-- One level of in-place dynamic-category expansion: every `custom` entry is
replaced by its registered expansion, other entries are kept. -/
def flattenOnce (reg : Registry) : List EntryInfo → List EntryInfo
  | [] => []
  | e :: rest =>
    (match e with
     | .custom categoryName => (regLookup reg categoryName).getD []
     | _ => [e]) ++ flattenOnce reg rest

/-- Every entry of the list is free of dynamic categories. -/
def customFree (l : List EntryInfo) : Bool :=
  l.all (fun e => !e.isCustom)

/-- The separator's gap property is present and parses to a number. -/
def sepGapNumeric (info : SepInfo) : Bool :=
  match info.gap with
  | some v => v.parsedInt.isSome
  | none => false

/-- Every separator in the list carries a gap property that parses to a
number. -/
def sepsNumeric (l : List EntryInfo) : Bool :=
  l.all (fun e =>
    match e with
    | .sep info => sepGapNumeric info
    | _ => true)

/-- The list does not begin with a separator entry. -/
def headNotSep (l : List EntryInfo) : Bool :=
  match l with
  | .sep _ :: _ => false
  | _ => true

/-- Every registered expansion is nonempty and free of further dynamic
categories. -/
def regWellFormed (reg : Registry) : Bool :=
  reg.all (fun p => !p.2.isEmpty && customFree p.2)

/-- Every dynamic-category entry of the list has a registered callback. -/
def customsRegistered (reg : Registry) (l : List EntryInfo) : Bool :=
  l.all (fun e =>
    match e with
    | .custom categoryName => (regLookup reg categoryName).isSome
    | _ => true)

/-! ## Block recycling (`getRecycledBlock_`) -/

/-- The slice of a `BlockSvg` in the recycle pool the code observes: an
identity and its `type`. -/
structure RBlock where
  id : Nat
  btype : String
  deriving DecidableEq, Repr

/-- The index scan of `getRecycledBlock_`: the first `i` with
`recycledBlocks_[i].type === blockType`, or `-1` (here `none`). -/
def recycledFindIdx (pool : List RBlock) (blockType : String) : Option Nat :=
  match pool with
  | [] => none
  | b :: rest =>
    if b.btype = blockType then some 0
    else (recycledFindIdx rest blockType).map (· + 1)

/-- `getRecycledBlock_(blockType)`: `undefined` and an unchanged pool when no
entry matches, otherwise `recycledBlocks_.splice(index, 1)[0]` — the first
matching entry, removed from the pool. -/
def getRecycledBlock_ (pool : List RBlock) (blockType : String) :
    Option RBlock × List RBlock :=
  match recycledFindIdx pool blockType with
  | none => (none, pool)
  | some i => (pool[i]?, pool.take i ++ pool.drop (i + 1))

/-! ## Capacity filtering (`filterForCapacity_`) -/

/-- The slice of a flyout `BlockSvg` the capacity filter observes: identity,
`type` and enabled state. -/
structure FBlock where
  id : Nat
  btype : String
  enabled : Bool
  deriving DecidableEq, Repr

/-- A chain of blocks: the head is a top-level block of the flyout workspace
and each later element is reached from it by `getNextBlock()`. -/
abbrev Chain : Type := List FBlock

/-- Modelled from the spec: `common.getBlockTypeCounts(block)` (the file is
not under `src/`) — the block-type usage signature of a block including its
connected children, here the types along the chain. -/
def getBlockTypeCounts (chain : Chain) : List String :=
  chain.map (·.btype)

/-- `filterForCapacity_()`: for each top block of the flyout workspace, skip
it when it is in `permanentlyDisabled_` (`indexOf === -1` test on the **top**
block only); otherwise ask the target workspace whether its type counts fit
(`isCapacityAvailable`, an external query modelled as an oracle) and
`setEnabled(enable)` every block down the `getNextBlock()` chain. -/
def filterForCapacity_ (permanentlyDisabled : List Nat)
    (isCapacityAvailable : List String → Bool) (tops : List Chain) :
    List Chain :=
  tops.map (fun chain =>
    match chain with
    | [] => []
    | top :: _ =>
      if top.id ∈ permanentlyDisabled then chain
      else
        let enable := isCapacityAvailable (getBlockTypeCounts chain)
        chain.map (fun b => {b with enabled := enable}))

/-- Any number of capacity-filter passes, each against a possibly different
remaining-capacity oracle. -/
def filterPasses (permanentlyDisabled : List Nat)
    (oracles : List (List String → Bool)) (tops : List Chain) : List Chain :=
  oracles.foldl (fun t cap => filterForCapacity_ permanentlyDisabled cap t) tops

/-- `createFlyoutBlock_`'s bookkeeping after materializing `block`: a block
that is not enabled is recorded in `permanentlyDisabled_`. -/
def recordPermanentlyDisabled (block : FBlock)
    (permanentlyDisabled : List Nat) : List Nat :=
  if block.enabled then permanentlyDisabled
  else permanentlyDisabled ++ [block.id]

/-- Every block of every chain whose id is in the permanently-disabled set is
currently disabled. -/
def permMembersDisabled (permanentlyDisabled : List Nat)
    (tops : List Chain) : Prop :=
  ∀ chain ∈ tops, ∀ b ∈ chain, b.id ∈ permanentlyDisabled → b.enabled = false

/-- Permanently-disabled blocks occur only as chain heads: no member of any
chain's tail is in the set. -/
def permMembersTopOnly (permanentlyDisabled : List Nat)
    (tops : List Chain) : Prop :=
  ∀ chain ∈ tops, ∀ b ∈ chain.tail, b.id ∉ permanentlyDisabled

instance (perm : List Nat) (tops : List Chain) :
    Decidable (permMembersDisabled perm tops) := by
  unfold permMembersDisabled
  infer_instance

instance (perm : List Nat) (tops : List Chain) :
    Decidable (permMembersTopOnly perm tops) := by
  unfold permMembersTopOnly
  infer_instance

/-! ## The instantiation protocol (`createBlock`) -/

/-- A change notification fired on the target workspace, carrying the event
group it was fired under. -/
inductive Evt where
  | varCreate (varName : String) (group : String)
  | blockCreate (blockId : Nat) (group : String)
  deriving DecidableEq, Repr

/-- Modelled from the spec: the state of `events/utils.ts` (the file is not
under `src/`) — a suppression counter (`disable()` increments, `enable()`
decrements, events fire only at zero), the current group id, a counter for
generating fresh group ids, and the log of notifications actually emitted. -/
structure EvtState where
  disabledCount : Nat
  groupCounter : Nat
  group : String
  log : List Evt
  deriving DecidableEq, Repr

/-- `eventUtils.disable()`. -/
def evDisable (s : EvtState) : EvtState :=
  {s with disabledCount := s.disabledCount + 1}

/-- `eventUtils.enable()`. -/
def evEnable (s : EvtState) : EvtState :=
  {s with disabledCount := s.disabledCount - 1}

/-- `eventUtils.isEnabled()`. -/
def evIsEnabled (s : EvtState) : Bool :=
  s.disabledCount = 0

/-- `eventUtils.setGroup(true)`: start a fresh event group with a newly
generated id. -/
def evSetGroupTrue (s : EvtState) : EvtState :=
  {s with group := "group" ++ toString s.groupCounter,
          groupCounter := s.groupCounter + 1}

/-- `eventUtils.fire(e)`: append the event — stamped with the current group —
to the log, unless firing is suppressed. -/
def evFire (mk : String → Evt) (s : EvtState) : EvtState :=
  if s.disabledCount = 0 then {s with log := s.log ++ [mk s.group]} else s

/-- Modelled from the spec: `Variables.getAddedVariables(workspace, before)`
(the file is not under `src/`) — the set difference of the target workspace's
variables after cloning against the snapshot taken before. -/
def getAddedVariables (allCurrentVariables variablesBeforeCreation :
    List String) : List String :=
  allCurrentVariables.filter (fun v => v ∉ variablesBeforeCreation)

/-- `createBlock(originalBlock)` as it drives the event system: disable
events, snapshot the variables, run `placeNewBlock_` (whose internal firing
attempts, `internalFires`, happen while suppressed), re-enable in the
`finally`, compute the added variables, and — when events are enabled —
open a fresh group, fire one `VarCreate` per added variable and then one
`BlockCreate` for the new block. -/
def createBlock (variablesBeforeCreation variablesAfterCreation : List String)
    (newBlockId : Nat) (internalFires : List (String → Evt))
    (s0 : EvtState) : EvtState :=
  let s1 := evDisable s0
  let s2 := internalFires.foldl (fun s mk => evFire mk s) s1
  let s3 := evEnable s2
  let newVariables :=
    getAddedVariables variablesAfterCreation variablesBeforeCreation
  if evIsEnabled s3 then
    let s4 := evSetGroupTrue s3
    let s5 := newVariables.foldl (fun s v => evFire (Evt.varCreate v) s) s4
    evFire (Evt.blockCreate newBlockId) s5
  else s3

/-! ## Positioning the clone (`positionNewBlock_`) -/

/-- Modelled from the spec: `utils/coordinate.ts` (the file is not under
`src/`) — a 2-D point with exact rational components. -/
structure Coord where
  x : ℚ
  y : ℚ
  deriving DecidableEq, Repr

/-- `Coordinate.sum`. -/
def coordSum (a b : Coord) : Coord := ⟨a.x + b.x, a.y + b.y⟩

/-- `Coordinate.difference`. -/
def coordDifference (a b : Coord) : Coord := ⟨a.x - b.x, a.y - b.y⟩

/-- `Coordinate.scale`. -/
def coordScale (a : Coord) (s : ℚ) : Coord := ⟨a.x * s, a.y * s⟩

/-- `positionNewBlock_(oldBlock, block)`: compose the coordinate-frame
transforms — flyout-local position, scaled by the flyout workspace scale,
offset by the flyout's origin-offset-in-pixels, re-based against the target
workspace's origin-offset-in-pixels, and divided by the target scale — and
move the clone there. -/
def positionNewBlock_ (mainOffsetPixels flyoutOffsetPixels : Coord)
    (oldBlockPos : Coord) (flyoutScale targetScale : ℚ) : Coord :=
  let oldBlockPosScaled := coordScale oldBlockPos flyoutScale
  let oldBlockOffsetPixels := coordSum flyoutOffsetPixels oldBlockPosScaled
  let finalOffset := coordDifference oldBlockOffsetPixels mainOffsetPixels
  coordScale finalOffset (1 / targetScale)

end Flyout

namespace Flyout

example :
    createFlyoutInfo_ emptyReg GAP_Y 10
      [.block ⟨"math_number", none, none⟩,
       .sep ⟨some ⟨true, some 40⟩⟩,
       .block ⟨"math_arithmetic", none, none⟩] =
    .ok ([.blockItem ⟨"math_number", none, none⟩,
          .blockItem ⟨"math_arithmetic", none, none⟩], [40, 24]) := rfl

example :
    createFlyoutInfo_ emptyReg GAP_Y 10 [.sep ⟨some ⟨true, some 5⟩⟩] =
    .ok ([], [24]) := rfl

/-- The concrete descriptor of the spec's separator scenario:
`[{kind:"BLOCK", type:"math_number"}, {kind:"SEP", gap:40},
  {kind:"BLOCK", type:"math_arithmetic"}]`. -/
def sepScenario : List EntryInfo :=
  [.block ⟨"math_number", none, none⟩,
   .sep ⟨some ⟨true, some 40⟩⟩,
   .block ⟨"math_arithmetic", none, none⟩]

/-- C5 counterexample: on the concrete scenario descriptor the code produces
the gap sequence `[40, 24]` — the separator overwrote the first block's
trailing default gap, which sits at index 0 — not the claimed `[24, 40]`. -/
theorem sepScenario_gaps_counterexample :
    createFlyoutInfo_ emptyReg GAP_Y 10 sepScenario =
      .ok ([.blockItem ⟨"math_number", none, none⟩,
            .blockItem ⟨"math_arithmetic", none, none⟩], [40, 24]) ∧
    ([40, 24] : List Int) ≠ [24, 40] :=
  ⟨rfl, by decide⟩

/-- C5 (amended): on a vertical flyout (default gap `GAP_Y = 24`) the
scenario descriptor yields exactly the two block items in order and the gap
sequence `[40, 24]`: the separator overwrote the first block's trailing
default gap, so the two blocks are laid out top-to-bottom with 40px between
them (the gap at index 0 is the one following the first block). -/
theorem sepScenario_gaps :
    GAP_Y = 24 ∧
    createFlyoutInfo_ emptyReg GAP_Y 10 sepScenario =
      .ok ([.blockItem ⟨"math_number", none, none⟩,
            .blockItem ⟨"math_arithmetic", none, none⟩], [40, 24]) :=
  ⟨rfl, rfl⟩

/-- C8: when no dynamic-category callback is registered for a name, resolving
that name throws the configuration error immediately, and a dynamic-category
entry in the content stream aborts the whole parse with that error — the
remaining entries are never processed, so nothing is retried. -/
theorem getDynamicCategoryContents_missingCallback (reg : Registry)
    (categoryName : String) (dg : Int) (fuel : Nat) (rest : List EntryInfo)
    (contents : List Item) (gaps : List Int)
    (h : regLookup reg categoryName = none) :
    getDynamicCategoryContents_ reg categoryName = .error .configError ∧
    createFlyoutInfoLoop reg dg (fuel + 1) (.custom categoryName :: rest)
      contents gaps = .error .configError := by
  constructor
  · simp [getDynamicCategoryContents_, h]
  · simp [createFlyoutInfoLoop, getDynamicCategoryContents_, h]

/-- C8 witness: the empty registry rejects the category "VARIABLES" and a
parse hitting it fails with the configuration error even with entries left. -/
theorem getDynamicCategoryContents_missingCallback_witness :
    getDynamicCategoryContents_ emptyReg "VARIABLES" = .error .configError ∧
    createFlyoutInfoLoop emptyReg 24 (5 + 1) (.custom "VARIABLES" :: [.label])
      [] [] = .error .configError :=
  getDynamicCategoryContents_missingCallback emptyReg "VARIABLES" 24 5
    [.label] [] [] rfl

/-- C9: under an identity pan/zoom on both surfaces — flyout and target scale
both 1 and equal origin offsets — the clone is placed at target-local
coordinates equal to the source block's flyout-local coordinates. -/
theorem positionNewBlock_identityTransform (mainOffsetPixels
    flyoutOffsetPixels oldBlockPos : Coord) (flyoutScale targetScale : ℚ)
    (hfs : flyoutScale = 1) (hts : targetScale = 1)
    (hoff : flyoutOffsetPixels = mainOffsetPixels) :
    positionNewBlock_ mainOffsetPixels flyoutOffsetPixels oldBlockPos
      flyoutScale targetScale = oldBlockPos := by
  subst hfs hts hoff
  cases oldBlockPos with
  | mk px py =>
    simp [positionNewBlock_, coordScale, coordSum, coordDifference]

/-- C9 witness: with both scales 1 and both origin offsets `(3, 4)`, a source
block at `(5, 6)` lands at `(5, 6)`. -/
theorem positionNewBlock_identityTransform_witness :
    positionNewBlock_ ⟨3, 4⟩ ⟨3, 4⟩ ⟨5, 6⟩ 1 1 = ⟨5, 6⟩ :=
  positionNewBlock_identityTransform ⟨3, 4⟩ ⟨3, 4⟩ ⟨5, 6⟩ 1 1 rfl rfl rfl

/-- C10 counterexample: a block descriptor whose `gap` property is the number
`0` (JS-falsy, parses to 0) but which also embeds a `blockxml` with
`gap="7"`: the truthiness test skips the property, the blockxml gap wins and
`7` — neither the default `24` nor `0` — is appended. -/
theorem addBlockGap_zero_counterexample :
    addBlockGap_ ⟨"controls_if", some ⟨false, some 0⟩, some (some 7)⟩ [] 24 =
      [7] ∧ ((7 : Int) ≠ 24) ∧ ((7 : Int) ≠ 0) :=
  ⟨rfl, by decide, by decide⟩

/-- C10 (amended): a block descriptor whose `gap` parses to the integer 0
gets the axis default gap appended instead, provided the raw gap value is
JS-truthy (e.g. the string "0") or the descriptor has no embedded blockxml;
a JS-falsy zero (the number 0) alongside a blockxml instead defers to the
blockxml's own gap attribute. -/
theorem addBlockGap_zeroGap (blockInfo : BlockInfo) (gaps : List Int)
    (defaultGap : Int) (v : JsVal) (hv : blockInfo.gap = some v)
    (h0 : v.parsedInt = some 0)
    (h : v.truthy = true ∨ blockInfo.blockxmlGap = none) :
    addBlockGap_ blockInfo gaps defaultGap = gaps ++ [defaultGap] := by
  rcases h with h | h
  · simp [addBlockGap_, jsTruthy, hv, h, h0]
  · cases ht : v.truthy
    · simp [addBlockGap_, jsTruthy, hv, ht, h]
    · simp [addBlockGap_, jsTruthy, hv, ht, h0]

/-- C10 witness: a block descriptor with gap the string "0" (truthy, parses
to 0) and no blockxml gets the default 24 appended after an existing gap. -/
theorem addBlockGap_zeroGap_witness :
    addBlockGap_ ⟨"math_number", some ⟨true, some 0⟩, none⟩ [16] 24 =
      [16] ++ [24] :=
  addBlockGap_zeroGap ⟨"math_number", some ⟨true, some 0⟩, none⟩ [16] 24
    ⟨true, some 0⟩ rfl rfl (Or.inl rfl)

/-- C4 counterexample: a separator whose `gap` property is absent makes
`sepInfo['gap']!.toString()` throw a `TypeError` — even as the first entry it
does not append the default gap entry the claim promises. -/
theorem addSeparatorGap_missing_counterexample :
    addSeparatorGap_ ⟨none⟩ [] 24 = .error .typeError ∧
    ∀ result : List Int,
      (Except.error FlyErr.typeError :
        Except FlyErr (List Int)) ≠ .ok result := by
  refine ⟨rfl, ?_⟩
  intro result h
  cases h

/-- C4 (amended): for a separator whose `gap` property is present: a numeric
gap `G` after at least one recorded gap entry overwrites the last gap entry
with `G` without changing the number of entries; with no gap entry recorded
yet it appends exactly one default gap entry; a present but non-numeric gap
also appends one default gap entry.  A separator whose `gap` property is
absent instead throws a `TypeError`. -/
theorem addSeparatorGap_behavior (sepInfo : SepInfo) (gaps : List Int)
    (defaultGap : Int) (v : JsVal) (hv : sepInfo.gap = some v) :
    (∀ n, v.parsedInt = some n → 0 < gaps.length →
      addSeparatorGap_ sepInfo gaps defaultGap =
        .ok (gaps.set (gaps.length - 1) n) ∧
      (gaps.set (gaps.length - 1) n).length = gaps.length) ∧
    (gaps = [] →
      addSeparatorGap_ sepInfo gaps defaultGap = .ok [defaultGap]) ∧
    (v.parsedInt = none →
      addSeparatorGap_ sepInfo gaps defaultGap = .ok (gaps ++ [defaultGap])) := by
  refine ⟨?_, ?_, ?_⟩
  · intro n hn hlen
    constructor
    · have hne : gaps ≠ [] := List.ne_nil_of_length_pos hlen
      simp [addSeparatorGap_, hv, hn, hlen, hne]
    · exact List.length_set ..
  · intro hgaps
    subst hgaps
    cases hn : v.parsedInt <;> simp [addSeparatorGap_, hv, hn]
  · intro hn
    simp [addSeparatorGap_, hv, hn]

/-- C4 witness: a separator with numeric gap 36 after two recorded gaps
overwrites the last one; a non-numeric one after the same gaps appends the
default. -/
theorem addSeparatorGap_behavior_witness :
    addSeparatorGap_ ⟨some ⟨true, some 36⟩⟩ [24, 24] 24 = .ok [24, 36] ∧
    addSeparatorGap_ ⟨some ⟨true, none⟩⟩ [24, 24] 24 = .ok [24, 24, 24] := by
  constructor
  · have h := (addSeparatorGap_behavior ⟨some ⟨true, some 36⟩⟩ [24, 24] 24
      ⟨true, some 36⟩ rfl).1 36 rfl (by decide)
    simpa using h.1
  · have h := (addSeparatorGap_behavior ⟨some ⟨true, none⟩⟩ [24, 24] 24
      ⟨true, none⟩ rfl).2.2 rfl
    simpa using h

/-- C3 counterexample: a descriptor that is a single leading separator (with
a numeric gap) produces zero contents but one gap entry, so
`contents.length == gaps.length` fails exactly in the leading-separator case
the claim includes. -/
theorem createFlyoutInfo_lengths_counterexample :
    createFlyoutInfo_ emptyReg GAP_Y 2 [.sep ⟨some ⟨true, some 5⟩⟩] =
      .ok ([], [24]) ∧
    ([] : List Item).length ≠ ([24] : List Int).length :=
  ⟨rfl, by decide⟩

/-- The registry of the nested-dynamic-category counterexample: category "A"
expands to a dynamic-category entry for "B" followed by a block, and "B"
expands to a single block. -/
def nestedReg : Registry :=
  [("A", [.custom "B", .block ⟨"t1", none, none⟩]),
   ("B", [.block ⟨"t2", none, none⟩])]

/-- C6 counterexample: expanding `[custom "A"]` replaces it by its expansion,
but the dynamic-category entry for "B" sitting at the expansion's first
position is re-read without the `'custom'` check, matches no switch case and
is silently dropped — the result lacks "B"'s block entirely instead of
resolving it. -/
theorem createFlyoutInfo_nestedFirst_counterexample :
    createFlyoutInfo_ nestedReg GAP_Y 10 [.custom "A"] =
      .ok ([.blockItem ⟨"t1", none, none⟩], [24]) ∧
    ([Item.blockItem ⟨"t1", none, none⟩] : List Item) ≠
      [.blockItem ⟨"t2", none, none⟩, .blockItem ⟨"t1", none, none⟩] :=
  ⟨rfl, by decide⟩

/-- C7: `getRecycledBlock_` either reports no match — returning `undefined`
and leaving the pool untouched, with no pool entry of the requested type —
or returns the first pool entry of the requested type, removing exactly that
entry while every other entry keeps its relative order. -/
theorem getRecycledBlock_spec (pool : List RBlock) (blockType : String) :
    ((getRecycledBlock_ pool blockType).1 = none →
      (getRecycledBlock_ pool blockType).2 = pool ∧
      ∀ b ∈ pool, b.btype ≠ blockType) ∧
    (∀ b, (getRecycledBlock_ pool blockType).1 = some b →
      b.btype = blockType ∧ ∃ pre post, pool = pre ++ b :: post ∧
        (∀ x ∈ pre, x.btype ≠ blockType) ∧
        (getRecycledBlock_ pool blockType).2 = pre ++ post) := by
  induction pool with
  | nil =>
    constructor
    · intro _
      exact ⟨rfl, by simp⟩
    · intro b hb
      simp [getRecycledBlock_, recycledFindIdx] at hb
  | cons a rest ih =>
    by_cases ha : a.btype = blockType
    · constructor
      · intro h
        simp [getRecycledBlock_, recycledFindIdx, ha] at h
      · intro b hb
        simp [getRecycledBlock_, recycledFindIdx, ha] at hb
        subst hb
        refine ⟨ha, [], rest, by simp, by simp, ?_⟩
        simp [getRecycledBlock_, recycledFindIdx, ha]
    · cases hfind : recycledFindIdx rest blockType with
      | none =>
        have hval : getRecycledBlock_ (a :: rest) blockType = (none, a :: rest) := by
          simp [getRecycledBlock_, recycledFindIdx, ha, hfind]
        have hrest : getRecycledBlock_ rest blockType = (none, rest) := by
          simp [getRecycledBlock_, hfind]
        constructor
        · intro _
          obtain ⟨-, h3⟩ := ih.1 (by rw [hrest])
          rw [hval]
          refine ⟨rfl, ?_⟩
          intro b hb
          rcases List.mem_cons.mp hb with rfl | hmem
          · exact ha
          · exact h3 b hmem
        · intro b hb
          rw [hval] at hb
          simp at hb
      | some j =>
        have hval : getRecycledBlock_ (a :: rest) blockType =
            (rest[j]?, a :: (rest.take j ++ rest.drop (j + 1))) := by
          simp [getRecycledBlock_, recycledFindIdx, ha, hfind,
            List.getElem?_cons_succ, List.take_succ_cons, List.drop_succ_cons]
        have hrest : getRecycledBlock_ rest blockType =
            (rest[j]?, rest.take j ++ rest.drop (j + 1)) := by
          simp [getRecycledBlock_, hfind]
        constructor
        · intro h
          rw [hval] at h
          obtain ⟨h2, h3⟩ := ih.1 (by rw [hrest]; exact h)
          rw [hrest] at h2
          simp at h2
          rw [hval]
          constructor
          · simp [h2]
          · intro b hb
            rcases List.mem_cons.mp hb with rfl | hmem
            · exact ha
            · exact h3 b hmem
        · intro b hb
          rw [hval] at hb
          obtain ⟨hbt, pre, post, hsplit, hpre, h2⟩ :=
            ih.2 b (by rw [hrest]; exact hb)
          rw [hrest] at h2
          simp at h2
          refine ⟨hbt, a :: pre, post, by simp [hsplit], ?_, ?_⟩
          · intro x hx
            rcases List.mem_cons.mp hx with rfl | hmem
            · exact ha
            · exact hpre x hmem
          · rw [hval]
            simp [h2]

/-- A concrete recycle pool: one block of type "a" before two of type "b". -/
def rpool : List RBlock := [⟨1, "a"⟩, ⟨2, "b"⟩, ⟨3, "b"⟩]

/-- C7 witness: requesting type "b" from `rpool` returns the first "b" entry
(id 2); it is the one removed and the remaining entries keep their order. -/
theorem getRecycledBlock_spec_witness :
    (getRecycledBlock_ rpool "b").1 = some ⟨2, "b"⟩ ∧
    ((RBlock.mk 2 "b").btype = "b" ∧ ∃ pre post,
      rpool = pre ++ ⟨2, "b"⟩ :: post ∧ (∀ x ∈ pre, x.btype ≠ "b") ∧
      (getRecycledBlock_ rpool "b").2 = pre ++ post) :=
  ⟨by decide, (getRecycledBlock_spec rpool "b").2 ⟨2, "b"⟩ (by decide)⟩

/-- C1 counterexample: a permanently-disabled block (id 2) connected below an
enabled, non-permanently-disabled top block (id 1): the invariant holds
before the pass, yet one capacity-filter pass with capacity available walks
the chain and re-enables block 2, breaking the invariant. -/
theorem filterForCapacity_chained_counterexample :
    permMembersDisabled [2] [[⟨1, "a", true⟩, ⟨2, "b", false⟩]] ∧
    filterForCapacity_ [2] (fun _ => true)
        [[⟨1, "a", true⟩, ⟨2, "b", false⟩]] =
      [[⟨1, "a", true⟩, ⟨2, "b", true⟩]] ∧
    ¬ permMembersDisabled [2] [[⟨1, "a", true⟩, ⟨2, "b", true⟩]] :=
  ⟨by decide, rfl, by decide⟩

/-- One capacity-filter pass preserves both invariants: permanently-disabled
members stay disabled and they keep occurring only as chain heads. -/
theorem filterForCapacity_preserves (perm : List Nat)
    (cap : List String → Bool) (tops : List Chain)
    (htop : permMembersTopOnly perm tops)
    (hdis : permMembersDisabled perm tops) :
    permMembersDisabled perm (filterForCapacity_ perm cap tops) ∧
    permMembersTopOnly perm (filterForCapacity_ perm cap tops) := by
  constructor
  · intro chain' hchain' b hb hbid
    obtain ⟨chain, hchain, rfl⟩ := List.mem_map.mp hchain'
    cases chain with
    | nil => simp at hb
    | cons top tl =>
      by_cases hmem : top.id ∈ perm
      · simp only [hmem, if_pos] at hb
        exact hdis _ hchain b hb hbid
      · simp only [hmem, if_neg, not_false_iff] at hb
        obtain ⟨b0, hb0, rfl⟩ := List.mem_map.mp hb
        have hid : ∀ (e : Bool) (bb : FBlock),
            ({bb with enabled := e} : FBlock).id = bb.id := fun _ _ => rfl
        rw [hid] at hbid
        rcases List.mem_cons.mp hb0 with rfl | hmem2
        · exact absurd hbid hmem
        · exact absurd hbid (htop _ hchain b0 hmem2)
  · intro chain' hchain' b hb
    obtain ⟨chain, hchain, rfl⟩ := List.mem_map.mp hchain'
    cases chain with
    | nil => simp at hb
    | cons top tl =>
      by_cases hmem : top.id ∈ perm
      · simp only [hmem, if_pos] at hb
        exact htop _ hchain b hb
      · simp only [hmem, if_neg, not_false_iff] at hb
        obtain ⟨b0, hb0, rfl⟩ := List.mem_map.mp hb
        have hid : ∀ (e : Bool) (bb : FBlock),
            ({bb with enabled := e} : FBlock).id = bb.id := fun _ _ => rfl
        rw [hid]
        exact htop _ hchain b0 hb0

/-- C1 (amended): every block recorded in the permanently-disabled set that
occurs only as a top-level block stays disabled after any number of
capacity-filter passes, whatever each pass's remaining-capacity oracle says;
the restriction to top-level occurrences is forced, since the filter walks
`getNextBlock()` chains and re-enables a set member connected below a
non-member top block. -/
theorem filterForCapacity_permanentlyDisabled (perm : List Nat)
    (oracles : List (List String → Bool)) (tops : List Chain)
    (htop : permMembersTopOnly perm tops)
    (hdis : permMembersDisabled perm tops) :
    permMembersDisabled perm (filterPasses perm oracles tops) := by
  induction oracles generalizing tops with
  | nil => simpa [filterPasses] using hdis
  | cons cap rest ih =>
    have h := filterForCapacity_preserves perm cap tops htop hdis
    simpa [filterPasses] using ih _ h.2 h.1

/-- C1 witness: a permanently-disabled top-level block (id 5) stays disabled
across two filter passes with different capacity answers. -/
theorem filterForCapacity_permanentlyDisabled_witness :
    permMembersTopOnly [5]
      [[⟨5, "x", false⟩], [⟨1, "y", true⟩, ⟨2, "y", true⟩]] ∧
    permMembersDisabled [5]
      [[⟨5, "x", false⟩], [⟨1, "y", true⟩, ⟨2, "y", true⟩]] ∧
    permMembersDisabled [5]
      (filterPasses [5] [fun _ => true, fun _ => false]
        [[⟨5, "x", false⟩], [⟨1, "y", true⟩, ⟨2, "y", true⟩]]) :=
  ⟨by decide, by decide,
    filterForCapacity_permanentlyDisabled [5] _ _ (by decide) (by decide)⟩

/-- Firing attempts while notifications are suppressed leave the event state
untouched. -/
theorem evFireFold_disabled (fires : List (String → Evt)) (s : EvtState)
    (h : s.disabledCount ≠ 0) :
    fires.foldl (fun s mk => evFire mk s) s = s := by
  induction fires with
  | nil => rfl
  | cons mk rest ih =>
    rw [List.foldl_cons]
    rw [show evFire mk s = s from by simp [evFire, h]]
    exact ih

/-- Firing one `VarCreate` per variable with notifications enabled appends
exactly those events, stamped with the current group, in order. -/
theorem evFireFold_enabled (l : List String) (s : EvtState)
    (h : s.disabledCount = 0) :
    l.foldl (fun s v => evFire (Evt.varCreate v) s) s =
      {s with log := s.log ++ l.map (fun v => Evt.varCreate v s.group)} := by
  induction l generalizing s with
  | nil => simp
  | cons v rest ih =>
    rw [List.foldl_cons]
    rw [show evFire (Evt.varCreate v) s =
      {s with log := s.log ++ [Evt.varCreate v s.group]} from by simp [evFire, h]]
    rw [ih _ (by simp [h])]
    simp

/-- C2: when notifications are globally enabled at call time, a successful
`createBlock` emits exactly one batch: one `VarCreate` per variable present
after cloning but absent before (in order, none for reused variables),
followed by exactly one `BlockCreate` for the new block, all stamped with
the one freshly generated group id — and nothing else, whatever notification
attempts happened inside the suppressed cloning step. -/
theorem createBlock_eventBatch (variablesBeforeCreation
    variablesAfterCreation : List String) (newBlockId : Nat)
    (internalFires : List (String → Evt)) (s0 : EvtState)
    (h : s0.disabledCount = 0) :
    (createBlock variablesBeforeCreation variablesAfterCreation newBlockId
        internalFires s0).log =
      s0.log ++
      (getAddedVariables variablesAfterCreation variablesBeforeCreation).map
        (fun v => Evt.varCreate v ("group" ++ toString s0.groupCounter)) ++
      [Evt.blockCreate newBlockId ("group" ++ toString s0.groupCounter)] := by
  obtain ⟨dc, gc, gr, lg⟩ := s0
  simp only at h
  subst h
  simp only [createBlock]
  rw [evFireFold_disabled _ _ (by simp [evDisable])]
  rw [show evEnable (evDisable ⟨0, gc, gr, lg⟩) = ⟨0, gc, gr, lg⟩ from rfl]
  rw [if_pos (show evIsEnabled ⟨0, gc, gr, lg⟩ = true from rfl)]
  rw [evFireFold_enabled _ _ (by simp [evSetGroupTrue])]
  simp [evSetGroupTrue, evFire]

/-- Custom-free prefixes pass through one level of expansion unchanged. -/
theorem flattenOnce_customFree_append (reg : Registry) :
    ∀ (l1 l2 : List EntryInfo), customFree l1 = true →
      flattenOnce reg (l1 ++ l2) = l1 ++ flattenOnce reg l2 := by
  intro l1
  induction l1 with
  | nil => intro l2 _; rfl
  | cons e l1 ih =>
    intro l2 hcf
    rw [customFree, List.all_cons, Bool.and_eq_true] at hcf
    cases e with
    | custom categoryName => simp [EntryInfo.isCustom] at hcf
    | block info => simp [flattenOnce, ih l2 hcf.2]
    | sep info => simp [flattenOnce, ih l2 hcf.2]
    | label => simp [flattenOnce, ih l2 hcf.2]
    | button => simp [flattenOnce, ih l2 hcf.2]

/-- A lookup in a well-formed registry yields a nonempty, custom-free
expansion. -/
theorem regWellFormed_lookup (reg : Registry) (h : regWellFormed reg = true) :
    ∀ (categoryName : String) (l : List EntryInfo),
      regLookup reg categoryName = some l → l ≠ [] ∧ customFree l = true := by
  induction reg with
  | nil =>
    intro categoryName l hl
    simp [regLookup] at hl
  | cons p rest ih =>
    obtain ⟨k, v⟩ := p
    rw [regWellFormed, List.all_cons, Bool.and_eq_true] at h
    intro categoryName l hl
    rw [regLookup] at hl
    by_cases hk : categoryName = k
    · rw [if_pos hk] at hl
      injection hl with hvl
      subst hvl
      have h1 := h.1
      simp only [Bool.and_eq_true, Bool.not_eq_true'] at h1
      refine ⟨?_, h1.2⟩
      intro hnil
      rw [hnil] at h1
      simp at h1
    · rw [if_neg hk] at hl
      exact ih h.2 categoryName l hl

/-- A custom-free list trivially has all its dynamic categories registered. -/
theorem customFree_customsRegistered (reg : Registry) :
    ∀ l, customFree l = true → customsRegistered reg l = true := by
  intro l
  induction l with
  | nil => intro _; rfl
  | cons e rest ih =>
    intro h
    rw [customFree, List.all_cons, Bool.and_eq_true] at h
    rw [customsRegistered, List.all_cons, Bool.and_eq_true]
    refine ⟨?_, ih h.2⟩
    cases e with
    | custom categoryName => simp [EntryInfo.isCustom] at h
    | block info => rfl
    | sep info => rfl
    | label => rfl
    | button => rfl

/-- `customsRegistered` distributes over append. -/
theorem customsRegistered_append (reg : Registry) (l1 l2 : List EntryInfo) :
    customsRegistered reg (l1 ++ l2) =
      (customsRegistered reg l1 && customsRegistered reg l2) := by
  simp [customsRegistered, List.all_append]

/-- The parsing loop agrees with straight-line processing of the one-level
in-place expansion, whenever the registry is well-formed (nonempty,
custom-free expansions) and every dynamic category of the stream is
registered. -/
theorem createFlyoutInfoLoop_flatten (reg : Registry) (dg : Int)
    (hreg : regWellFormed reg = true) :
    ∀ (fuel : Nat) (l : List EntryInfo) (c : List Item) (g : List Int),
      customsRegistered reg l = true →
      (flattenOnce reg l).length < fuel →
      createFlyoutInfoLoop reg dg fuel l c g =
        processSeq dg (flattenOnce reg l) c g := by
  intro fuel
  induction fuel with
  | zero =>
    intro l c g _ hf
    exact absurd hf (Nat.not_lt_zero _)
  | succ fuel ih =>
    intro l c g hcr hf
    cases l with
    | nil => rfl
    | cons e rest =>
      rw [customsRegistered, List.all_cons, Bool.and_eq_true] at hcr
      cases e with
      | custom categoryName =>
        obtain ⟨exp, hexp⟩ := Option.isSome_iff_exists.mp hcr.1
        obtain ⟨hne, hcfexp⟩ :=
          regWellFormed_lookup reg hreg categoryName exp hexp
        cases exp with
        | nil => exact absurd rfl hne
        | cons e0 etail =>
          rw [customFree, List.all_cons, Bool.and_eq_true] at hcfexp
          have hflat : flattenOnce reg (.custom categoryName :: rest) =
              e0 :: (etail ++ flattenOnce reg rest) := by
            simp [flattenOnce, hexp]
          have hlen2 : (etail ++ flattenOnce reg rest).length < fuel := by
            rw [hflat] at hf
            simp only [List.length_cons] at hf
            omega
          rw [hflat]
          simp only [createFlyoutInfoLoop, getDynamicCategoryContents_, hexp,
            List.cons_append]
          cases hstep : switchStep dg e0 c g with
          | error err => simp only [hstep, processSeq]
          | ok pair =>
            obtain ⟨c2, g2⟩ := pair
            simp only [hstep, processSeq]
            have hcr2 : customsRegistered reg (etail ++ rest) = true := by
              rw [customsRegistered_append, Bool.and_eq_true]
              exact ⟨customFree_customsRegistered reg etail hcfexp.2, hcr.2⟩
            have hflat2 : flattenOnce reg (etail ++ rest) =
                etail ++ flattenOnce reg rest :=
              flattenOnce_customFree_append reg etail rest hcfexp.2
            rw [← hflat2]
            exact ih _ c2 g2 hcr2 (by rw [hflat2]; exact hlen2)
      | block info =>
        have hflat : flattenOnce reg (.block info :: rest) =
            EntryInfo.block info :: flattenOnce reg rest := rfl
        have hlen2 : (flattenOnce reg rest).length < fuel := by
          rw [hflat] at hf
          simp only [List.length_cons] at hf
          omega
        rw [hflat]
        simp only [createFlyoutInfoLoop]
        cases hstep : switchStep dg (.block info) c g with
        | error err => simp only [hstep, processSeq]
        | ok pair =>
          obtain ⟨c2, g2⟩ := pair
          simp only [hstep, processSeq]
          exact ih rest c2 g2 hcr.2 hlen2
      | sep info =>
        have hflat : flattenOnce reg (.sep info :: rest) =
            EntryInfo.sep info :: flattenOnce reg rest := rfl
        have hlen2 : (flattenOnce reg rest).length < fuel := by
          rw [hflat] at hf
          simp only [List.length_cons] at hf
          omega
        rw [hflat]
        simp only [createFlyoutInfoLoop]
        cases hstep : switchStep dg (.sep info) c g with
        | error err => simp only [hstep, processSeq]
        | ok pair =>
          obtain ⟨c2, g2⟩ := pair
          simp only [hstep, processSeq]
          exact ih rest c2 g2 hcr.2 hlen2
      | label =>
        have hflat : flattenOnce reg (.label :: rest) =
            EntryInfo.label :: flattenOnce reg rest := rfl
        have hlen2 : (flattenOnce reg rest).length < fuel := by
          rw [hflat] at hf
          simp only [List.length_cons] at hf
          omega
        rw [hflat]
        simp only [createFlyoutInfoLoop]
        cases hstep : switchStep dg EntryInfo.label c g with
        | error err => simp only [hstep, processSeq]
        | ok pair =>
          obtain ⟨c2, g2⟩ := pair
          simp only [hstep, processSeq]
          exact ih rest c2 g2 hcr.2 hlen2
      | button =>
        have hflat : flattenOnce reg (.button :: rest) =
            EntryInfo.button :: flattenOnce reg rest := rfl
        have hlen2 : (flattenOnce reg rest).length < fuel := by
          rw [hflat] at hf
          simp only [List.length_cons] at hf
          omega
        rw [hflat]
        simp only [createFlyoutInfoLoop]
        cases hstep : switchStep dg EntryInfo.button c g with
        | error err => simp only [hstep, processSeq]
        | ok pair =>
          obtain ⟨c2, g2⟩ := pair
          simp only [hstep, processSeq]
          exact ih rest c2 g2 hcr.2 hlen2

/-- C6 (amended): every dynamic-category entry of the descriptor is replaced
in place by its resolved expansion — provably so whenever no expansion
begins with a further dynamic-category entry (here: registered expansions
are nonempty and custom-free), in which case parsing coincides with
straight-line processing of the in-place flattened stream; a
dynamic-category entry sitting at the first position of an expansion is
instead skipped unresolved and dropped. -/
theorem createFlyoutInfo_expandsInPlace (reg : Registry) (dg : Int)
    (parsedContent : List EntryInfo) (fuel : Nat)
    (hreg : regWellFormed reg = true)
    (hcr : customsRegistered reg parsedContent = true)
    (hfuel : (flattenOnce reg parsedContent).length < fuel) :
    createFlyoutInfo_ reg dg fuel parsedContent =
      processSeq dg (flattenOnce reg parsedContent) [] [] :=
  createFlyoutInfoLoop_flatten reg dg hreg fuel parsedContent [] [] hcr hfuel

/-- A one-entry registry mapping "COLOUR" to a single block. -/
def witReg : Registry := [("COLOUR", [.block ⟨"t2", none, none⟩])]

/-- The descriptor for the C6 witness: a dynamic category then a label. -/
def witDescriptor : List EntryInfo := [.custom "COLOUR", .label]

/-- C6 witness: with a well-formed registry, parsing
`[custom "COLOUR", label]` equals processing the in-place expansion
`[block "t2", label]` — the dynamic category was resolved and spliced. -/
theorem createFlyoutInfo_expandsInPlace_witness :
    regWellFormed witReg = true ∧
    customsRegistered witReg witDescriptor = true ∧
    createFlyoutInfo_ witReg GAP_Y 5 witDescriptor =
      processSeq GAP_Y (flattenOnce witReg witDescriptor) [] [] :=
  ⟨by decide, by decide,
    createFlyoutInfo_expandsInPlace witReg GAP_Y witDescriptor 5
      (by decide) (by decide) (by decide)⟩

/-- Appending a block's gap always adds exactly one gap entry. -/
theorem addBlockGap_length (blockInfo : BlockInfo) (gaps : List Int)
    (defaultGap : Int) :
    (addBlockGap_ blockInfo gaps defaultGap).length = gaps.length + 1 := by
  simp [addBlockGap_]

/-- Length invariant of the parsing loop on custom-free descriptors whose
separators all carry numeric gaps: once at least one gap entry exists, the
loop adds contents entries and gap entries in lockstep. -/
theorem createFlyoutInfoLoop_lengthInv (reg : Registry) (dg : Int) :
    ∀ (l : List EntryInfo) (fuel : Nat) (c : List Item) (g : List Int),
      customFree l = true → sepsNumeric l = true → l.length < fuel →
      0 < g.length →
      ∃ c2 g2, createFlyoutInfoLoop reg dg fuel l c g = .ok (c2, g2) ∧
        c2.length + g.length = g2.length + c.length ∧ 0 < g2.length := by
  intro l
  induction l with
  | nil =>
    intro fuel c g _ _ hfuel hg
    match fuel, hfuel with
    | fuel + 1, _ => exact ⟨c, g, rfl, by omega, hg⟩
  | cons e rest ih =>
    intro fuel c g hcf hsn hfuel hg
    rw [customFree, List.all_cons, Bool.and_eq_true] at hcf
    rw [sepsNumeric, List.all_cons, Bool.and_eq_true] at hsn
    match fuel, hfuel with
    | fuel + 1, hfuel =>
      have hrestlen : rest.length < fuel := by
        simp only [List.length_cons] at hfuel
        omega
      cases e with
      | custom categoryName => simp [EntryInfo.isCustom] at hcf
      | block info =>
        obtain ⟨c2, g2, heq, hlen, hg2⟩ :=
          ih fuel (c ++ [.blockItem info]) (addBlockGap_ info g dg)
            hcf.2 hsn.2 hrestlen (by simp [addBlockGap_length])
        refine ⟨c2, g2, heq, ?_, hg2⟩
        rw [addBlockGap_length] at hlen
        simp only [List.length_append, List.length_cons,
          List.length_nil] at hlen
        omega
      | sep info =>
        have h1 := hsn.1
        obtain ⟨gapOpt⟩ := info
        cases gapOpt with
        | none => exact absurd h1 (by decide)
        | some v =>
          cases hn : v.parsedInt with
          | none =>
            have h2 : v.parsedInt.isSome = true := h1
            rw [hn] at h2
            simp at h2
          | some n =>
            have hstep : addSeparatorGap_ ⟨some v⟩ g dg =
                .ok (g.set (g.length - 1) n) := by
              simp [addSeparatorGap_, hn, hg]
            obtain ⟨c2, g2, heq, hlen, hg2⟩ :=
              ih fuel c (g.set (g.length - 1) n) hcf.2 hsn.2 hrestlen
                (by rw [List.length_set]; exact hg)
            refine ⟨c2, g2, ?_, ?_, hg2⟩
            · simp only [createFlyoutInfoLoop, switchStep, hstep]
              exact heq
            · rw [List.length_set] at hlen
              omega
      | label =>
        obtain ⟨c2, g2, heq, hlen, hg2⟩ :=
          ih fuel (c ++ [.buttonItem true]) (g ++ [dg])
            hcf.2 hsn.2 hrestlen (by simp)
        refine ⟨c2, g2, heq, ?_, hg2⟩
        simp only [List.length_append, List.length_cons,
          List.length_nil] at hlen
        omega
      | button =>
        obtain ⟨c2, g2, heq, hlen, hg2⟩ :=
          ih fuel (c ++ [.buttonItem false]) (g ++ [dg])
            hcf.2 hsn.2 hrestlen (by simp)
        refine ⟨c2, g2, heq, ?_, hg2⟩
        simp only [List.length_append, List.length_cons,
          List.length_nil] at hlen
        omega

/-- C3 (amended): `contents.length == gaps.length` does hold for every
custom-free descriptor all of whose separators carry numeric gaps and which
does not begin with a separator; the restriction is forced, because a
separator that appends rather than overwrites — a leading separator, or
(with this code's `TypeError` aside) a non-numeric one — leaves `gaps`
longer than `contents`. -/
theorem createFlyoutInfo_lengths (reg : Registry) (dg : Int)
    (parsedContent : List EntryInfo) (fuel : Nat)
    (hcf : customFree parsedContent = true)
    (hsn : sepsNumeric parsedContent = true)
    (hhead : headNotSep parsedContent = true)
    (hfuel : parsedContent.length < fuel) :
    ∃ contents gaps,
      createFlyoutInfo_ reg dg fuel parsedContent = .ok (contents, gaps) ∧
      contents.length = gaps.length := by
  cases parsedContent with
  | nil =>
    match fuel, hfuel with
    | fuel + 1, _ => exact ⟨[], [], rfl, rfl⟩
  | cons e rest =>
    rw [customFree, List.all_cons, Bool.and_eq_true] at hcf
    rw [sepsNumeric, List.all_cons, Bool.and_eq_true] at hsn
    match fuel, hfuel with
    | fuel + 1, hfuel =>
      have hrestlen : rest.length < fuel := by
        simp only [List.length_cons] at hfuel
        omega
      cases e with
      | custom categoryName => simp [EntryInfo.isCustom] at hcf
      | sep info => simp [headNotSep] at hhead
      | block info =>
        obtain ⟨c2, g2, heq, hlen, -⟩ :=
          createFlyoutInfoLoop_lengthInv reg dg rest fuel
            [.blockItem info] (addBlockGap_ info [] dg)
            hcf.2 hsn.2 hrestlen (by simp [addBlockGap_length])
        refine ⟨c2, g2, heq, ?_⟩
        rw [addBlockGap_length] at hlen
        simp only [List.length_cons, List.length_nil] at hlen
        omega
      | label =>
        obtain ⟨c2, g2, heq, hlen, -⟩ :=
          createFlyoutInfoLoop_lengthInv reg dg rest fuel
            [.buttonItem true] [dg] hcf.2 hsn.2 hrestlen (by simp)
        refine ⟨c2, g2, heq, ?_⟩
        simp only [List.length_cons, List.length_nil] at hlen
        omega
      | button =>
        obtain ⟨c2, g2, heq, hlen, -⟩ :=
          createFlyoutInfoLoop_lengthInv reg dg rest fuel
            [.buttonItem false] [dg] hcf.2 hsn.2 hrestlen (by simp)
        refine ⟨c2, g2, heq, ?_⟩
        simp only [List.length_cons, List.length_nil] at hlen
        omega

/-- A custom-free mixed descriptor for the C3 witness. -/
def mixedDescriptor : List EntryInfo :=
  [.block ⟨"math_number", none, none⟩,
   .sep ⟨some ⟨true, some 40⟩⟩,
   .label,
   .block ⟨"math_arithmetic", some ⟨true, some 8⟩, none⟩,
   .button]

/-- C3 witness: on a five-entry descriptor (two blocks, a numeric-gap
separator, a label and a button) the parse succeeds with as many contents as
gaps. -/
theorem createFlyoutInfo_lengths_witness :
    customFree mixedDescriptor = true ∧
    sepsNumeric mixedDescriptor = true ∧
    headNotSep mixedDescriptor = true ∧
    ∃ contents gaps,
      createFlyoutInfo_ emptyReg GAP_Y 6 mixedDescriptor =
        .ok (contents, gaps) ∧
      contents.length = gaps.length :=
  ⟨by decide, by decide, by decide,
    createFlyoutInfo_lengths emptyReg GAP_Y mixedDescriptor 6
      (by decide) (by decide) (by decide) (by decide)⟩

/-- C2 witness: with variables `["x"]` before and `["x", "y"]` after, the
emitted batch is exactly `VarCreate "y"` then `BlockCreate 7`, both in group
"group0", even though the suppressed cloning step attempted a firing. -/
theorem createBlock_eventBatch_witness :
    (createBlock ["x"] ["x", "y"] 7 [fun g => Evt.blockCreate 99 g]
        ⟨0, 0, "", []⟩).log =
      [Evt.varCreate "y" "group0", Evt.blockCreate 7 "group0"] := by
  have h := createBlock_eventBatch ["x"] ["x", "y"] 7
    [fun g => Evt.blockCreate 99 g] ⟨0, 0, "", []⟩ rfl
  simpa using h

end Flyout
